import Mathlib

/-!
Verification of the Metropolis-Hastings samplers in the two MCMC notebooks
(`mcmc_knownvariance.ipynb` and `mcmc_unknownvariance.ipynb`).

Both notebooks run the same sampling loop over 2-dimensional states:

    markov_chain[0] = initial_state
    for i in range(n_mc - 1):
        current  = markov_chain[i]
        proposed = current + noise_draw(i)
        r = density(proposed) / density(current)
        u = uniform_draw(i)
        if r > u:
            markov_chain[i+1] = proposed; acceptances += 1
        else:
            markov_chain[i+1] = current
    acceptance_ratio = acceptances / n_mc

The loop is embedded below with exact rational arithmetic, generic in the
target density and in the two per-step random streams (`noise` for the
proposal perturbations, `u` for the uniform draws).  The preallocated numpy
array `markov_chain` is modelled as the indexed family `mhState`, and the
array read out at the end of the run as the list `mhChain`.

The two target-density formulations of the unknown-variance notebook,
`posterior_space` and `posterior_space_2`, are embedded twice: over the
reals (exact algebraic semantics, for the equivalence question), and over an
IEEE-754 special-value carrier `Fp` (finite values kept exact, plus the two
infinities and nan) that follows the numpy float pipeline at arguments where
it produces non-finite intermediates.  In both embeddings the Python boolean
factor `(curr_param[1] > 0)` is rendered as an explicit 0/1 indicator.
-/

/-- A chain state: both notebooks use 2-dimensional real-valued states
((x, y) for the known-variance notebook, (mean, variance) for the
unknown-variance one), modelled with exact rational coordinates. -/
abbrev ChainState := ℚ × ℚ

/-- Random-walk proposal of both notebooks:
`proposed_mean = current_mean + numpy.random.multivariate_normal(meanp,covp)`
resp. `proposed = current_val + numpy.dot(cholesky,numpy.random.randn(2))`.
In both cases the candidate is the current state plus a random perturbation;
the perturbation is the abstract `noise` argument here. -/
def proposeStep (current noise : ChainState) : ChainState :=
  (current.1 + noise.1, current.2 + noise.2)

/-- The sampler state after `i` loop iterations:
`(mhState D noise u init i).1` is `markov_chain[i]` and
`(mhState D noise u init i).2` is the value of `acceptances` after the loop
body has run for indices `0, …, i-1`.  This mirrors the loop body exactly:
propose, form the density ratio, draw `u`, accept iff `ratio > rand`. -/
def mhState (D : ChainState → ℚ) (noise : ℕ → ChainState) (u : ℕ → ℚ)
    (init : ChainState) : ℕ → ChainState × ℕ
  | 0 => (init, 0)
  | i + 1 =>
    let s := mhState D noise u init i
    let proposed := proposeStep s.1 (noise i)
    let r := D proposed / D s.1
    if u i < r then (proposed, s.2 + 1) else (s.1, s.2)

/-- The chain produced by a run of `n` configured steps: the preallocated
array `markov_chain = numpy.zeros((n_mc,2))` read out after the loop, i.e.
the states at indices `0, …, n-1`. -/
def mhChain (D : ChainState → ℚ) (noise : ℕ → ChainState) (u : ℕ → ℚ)
    (init : ChainState) (n : ℕ) : List ChainState :=
  (List.range n).map fun i => (mhState D noise u init i).1

/-- The final value of the `acceptances` counter after a run of `n`
configured steps (the loop body runs `n - 1` times). -/
def mhAcceptances (D : ChainState → ℚ) (noise : ℕ → ChainState) (u : ℕ → ℚ)
    (init : ChainState) (n : ℕ) : ℕ :=
  (mhState D noise u init (n - 1)).2

/-- The reported empirical acceptance rate of a run, from the notebook line
`acceptance_ratio = acceptances / n_mc` (true division). -/
def acceptance_rate (D : ChainState → ℚ) (noise : ℕ → ChainState) (u : ℕ → ℚ)
    (init : ChainState) (n : ℕ) : ℚ :=
  (mhAcceptances D noise u init n : ℚ) / (n : ℚ)

/-- The raw posterior of the unknown-variance notebook (`posterior_space`):
`curr_param[1]` is the variance; power term `cps ** (-(N+2)/2)`, exponential
term `exp((-1/(2*cps)) * ((N-1)*sigma^2 + N*(mean-curr_param[0])^2))`, all
multiplied by the support indicator `(curr_param[1] > 0)`. -/
noncomputable def posterior_space (mean sigma : ℝ) (N : ℕ)
    (curr_param : ℝ × ℝ) : ℝ :=
  let cps := curr_param.2
  let p1 := cps ^ (-((N : ℝ) + 2) / 2)
  let p2 := ((N : ℝ) - 1) * sigma ^ 2
  let p3 := (N : ℝ) * (mean - curr_param.1) ^ 2
  let p4 := -1 / (2 * cps)
  let p5 := Real.exp (p4 * (p2 + p3))
  (if 0 < curr_param.2 then 1 else 0) * p1 * p5

/-- The second, "more numerically stable" posterior of the unknown-variance
notebook (`posterior_space_2`): power term `curr_param[1] ** (-N+2)`,
exponential term `exp(-1*((N-1)*sigma^2 + N*(mean-curr_param[0])^2) /
(2*curr_param[1]^2))`, multiplied by the same support indicator. -/
noncomputable def posterior_space_2 (mean sigma : ℝ) (N : ℕ)
    (curr_param : ℝ × ℝ) : ℝ :=
  let p1 := curr_param.2 ^ (-(N : ℝ) + 2)
  let p2 := ((N : ℝ) - 1) * sigma ^ 2
  let p3 := (N : ℝ) * (mean - curr_param.1) ^ 2
  let p4 := 2 * curr_param.2 ^ 2
  (if 0 < curr_param.2 then 1 else 0) * p1 * Real.exp (-1 * (p2 + p3) / p4)

/-- Extended value of IEEE-754 double arithmetic: a finite value (kept as an
exact real — rounding and overflow of finite intermediate results are not
modelled below, and zero is unsigned), positive infinity, negative infinity,
or nan.  This carrier follows the notebook's numpy pipeline at arguments
where it produces non-finite intermediates; the evaluations proved below
only involve finite intermediates that are exactly representable in float64,
so the unmodelled rounding does not affect them. -/
inductive Fp
  | num (x : ℝ)
  | inf
  | neginf
  | nan

/-- Fp addition with the IEEE special-value rules (nan propagates,
`inf + (-inf) = nan`). -/
noncomputable def Fp.add : Fp → Fp → Fp
  | .nan, _ => .nan
  | _, .nan => .nan
  | .num a, .num b => .num (a + b)
  | .num _, .inf => .inf
  | .num _, .neginf => .neginf
  | .inf, .num _ => .inf
  | .neginf, .num _ => .neginf
  | .inf, .inf => .inf
  | .inf, .neginf => .nan
  | .neginf, .inf => .nan
  | .neginf, .neginf => .neginf

/-- Fp multiplication with the IEEE special-value rules (nan propagates,
`0 * (±inf) = nan`, otherwise infinities keep the sign rule). -/
noncomputable def Fp.mul : Fp → Fp → Fp
  | .nan, _ => .nan
  | _, .nan => .nan
  | .num a, .num b => .num (a * b)
  | .num a, .inf => if 0 < a then .inf else if a < 0 then .neginf else .nan
  | .num a, .neginf => if 0 < a then .neginf else if a < 0 then .inf else .nan
  | .inf, .num b => if 0 < b then .inf else if b < 0 then .neginf else .nan
  | .neginf, .num b => if 0 < b then .neginf else if b < 0 then .inf else .nan
  | .inf, .inf => .inf
  | .inf, .neginf => .neginf
  | .neginf, .inf => .neginf
  | .neginf, .neginf => .inf

/-- Fp division with the IEEE special-value rules (nan propagates, a nonzero
finite value divided by (unsigned) zero gives the signed infinity as for
division by +0.0, `0/0 = nan`, `inf/inf = nan`, finite over infinite is 0). -/
noncomputable def Fp.div : Fp → Fp → Fp
  | .nan, _ => .nan
  | _, .nan => .nan
  | .num a, .num b =>
      if b = 0 then (if 0 < a then .inf else if a < 0 then .neginf else .nan)
      else .num (a / b)
  | .num _, .inf => .num 0
  | .num _, .neginf => .num 0
  | .inf, .num b => if 0 ≤ b then .inf else .neginf
  | .neginf, .num b => if 0 ≤ b then .neginf else .inf
  | .inf, .inf => .nan
  | .inf, .neginf => .nan
  | .neginf, .inf => .nan
  | .neginf, .neginf => .nan

/-- Fp power following IEEE-754 `pow` as implemented by `numpy.power` on
float64: nan propagates; a zero base with negative exponent gives `inf`
(numpy emits a divide-by-zero warning and returns `inf`); a negative base
with a non-integer exponent gives nan, with an integer exponent the exact
signed power; infinite bases and exponents follow the magnitude rules. -/
noncomputable def Fp.pow : Fp → Fp → Fp
  | .nan, _ => .nan
  | _, .nan => .nan
  | .num a, .num e =>
      if 0 < a then .num (a ^ e)
      else if a = 0 then
        (if e < 0 then .inf else if e = 0 then .num 1 else .num 0)
      else if (⌊e⌋ : ℝ) = e then .num (a ^ ⌊e⌋) else .nan
  | .num a, .inf => if 1 < |a| then .inf else if |a| = 1 then .num 1 else .num 0
  | .num a, .neginf => if 1 < |a| then .num 0 else if |a| = 1 then .num 1 else .inf
  | .inf, .num e => if e < 0 then .num 0 else if e = 0 then .num 1 else .inf
  | .neginf, .num e =>
      if e < 0 then .num 0
      else if e = 0 then .num 1
      else if (⌊e⌋ : ℝ) = e then
        (if ⌊e⌋ % 2 = 0 then .inf else .neginf)
      else .inf
  | .inf, .inf => .inf
  | .inf, .neginf => .num 0
  | .neginf, .inf => .inf
  | .neginf, .neginf => .num 0

/-- Fp exponential: nan propagates, `exp(-inf) = 0`, `exp(inf) = inf`,
finite arguments are kept exact (float overflow of `exp` at large finite
arguments is not modelled; the evaluations below never take `exp` of a large
finite argument). -/
noncomputable def Fp.exp : Fp → Fp
  | .nan => .nan
  | .inf => .inf
  | .neginf => .num 0
  | .num a => .num (Real.exp a)

/-- The raw posterior `posterior_space` followed operation by operation in
the IEEE special-value semantics: `p1 = power(cps, -(N+2)/2)`,
`p4 = -1/(2*cps)`, `p5 = exp(p4*(p2+p3))`, and the guarded product
`(cps > 0) * p1 * p5` (left-associated, as in Python). -/
noncomputable def posterior_space_fp (mean sigma : ℝ) (N : ℕ)
    (curr_param : ℝ × ℝ) : Fp :=
  let cps := Fp.num curr_param.2
  let p1 := Fp.pow cps (Fp.num (-((N : ℝ) + 2) / 2))
  let p2 := Fp.num (((N : ℝ) - 1) * sigma ^ 2)
  let p3 := Fp.num ((N : ℝ) * (mean - curr_param.1) ^ 2)
  let p4 := Fp.div (Fp.num (-1)) (Fp.mul (Fp.num 2) cps)
  let p5 := Fp.exp (Fp.mul p4 (Fp.add p2 p3))
  Fp.mul (Fp.mul (if 0 < curr_param.2 then Fp.num 1 else Fp.num 0) p1) p5

/-- The second posterior `posterior_space_2` followed operation by operation
in the IEEE special-value semantics: `p1 = power(cps, -N+2)`,
`p4 = 2*square(cps)`, and the guarded product
`(cps > 0) * p1 * exp(-1*(p2+p3)/p4)` (left-associated, as in Python). -/
noncomputable def posterior_space_2_fp (mean sigma : ℝ) (N : ℕ)
    (curr_param : ℝ × ℝ) : Fp :=
  let p1 := Fp.pow (Fp.num curr_param.2) (Fp.num (-(N : ℝ) + 2))
  let p2 := Fp.num (((N : ℝ) - 1) * sigma ^ 2)
  let p3 := Fp.num ((N : ℝ) * (mean - curr_param.1) ^ 2)
  let p4 := Fp.mul (Fp.num 2) (Fp.num (curr_param.2 ^ 2))
  Fp.mul (Fp.mul (if 0 < curr_param.2 then Fp.num 1 else Fp.num 0) p1)
    (Fp.exp (Fp.div (Fp.mul (Fp.num (-1)) (Fp.add p2 p3)) p4))

/-- A concrete density for sanity checks and witnesses: constant 1. -/
def demoDensity : ChainState → ℚ := fun _ => 1

/-- A concrete noise stream for sanity checks and witnesses. -/
def demoNoise : ℕ → ChainState := fun _ => (1, 1)

/-- A concrete uniform-draw stream for sanity checks and witnesses. -/
def demoUniform : ℕ → ℚ := fun _ => 0

example : mhState demoDensity demoNoise demoUniform (0, 0) 3 = ((3, 3), 3) := by
  norm_num [mhState, demoDensity, demoNoise, demoUniform, proposeStep]

example : mhChain demoDensity demoNoise demoUniform (0, 0) 3 =
    [(0, 0), (1, 1), (2, 2)] := by
  norm_num [mhChain, List.range_succ, mhState, demoDensity, demoNoise,
    demoUniform, proposeStep]

example : mhAcceptances demoDensity demoNoise demoUniform (0, 0) 3 = 2 := by
  norm_num [mhAcceptances, mhState, demoDensity, demoNoise, demoUniform,
    proposeStep]

/-- C1: at every step `i` of the loop, with `candidate = propose(chain[i])`
and `r = D(candidate) / D(chain[i])`: if `r > u` then `chain[i+1]` is the
candidate and the acceptance counter is incremented by one, otherwise
`chain[i+1] = chain[i]` exactly and the counter is unchanged, so the chain
always advances and a rejection repeats the previous state. -/
theorem mh_step_accepts_or_replays (D : ChainState → ℚ) (noise : ℕ → ChainState)
    (u : ℕ → ℚ) (init : ChainState) (i : ℕ) :
    (u i < D (proposeStep (mhState D noise u init i).1 (noise i)) /
        D (mhState D noise u init i).1 →
      mhState D noise u init (i + 1) =
        (proposeStep (mhState D noise u init i).1 (noise i),
          (mhState D noise u init i).2 + 1)) ∧
    (¬ u i < D (proposeStep (mhState D noise u init i).1 (noise i)) /
        D (mhState D noise u init i).1 →
      mhState D noise u init (i + 1) = mhState D noise u init i) := by
  constructor <;> intro h <;> simp only [mhState] <;> simp [h]

/-- Witness for C1 at a concrete run: with a constant density and zero
uniform draws the first proposal is accepted. -/
theorem mh_step_accepts_or_replays_witness :
    demoUniform 0 <
      demoDensity (proposeStep (mhState demoDensity demoNoise demoUniform
        (0, 0) 0).1 (demoNoise 0)) /
      demoDensity (mhState demoDensity demoNoise demoUniform (0, 0) 0).1 ∧
    mhState demoDensity demoNoise demoUniform (0, 0) 1 =
      (proposeStep (mhState demoDensity demoNoise demoUniform (0, 0) 0).1
          (demoNoise 0),
        (mhState demoDensity demoNoise demoUniform (0, 0) 0).2 + 1) :=
  ⟨by norm_num [demoUniform, demoDensity],
    (mh_step_accepts_or_replays demoDensity demoNoise demoUniform (0, 0) 0).1
      (by norm_num [demoUniform, demoDensity])⟩

/-- C5: for every configured number of steps `n ≥ 1` the returned chain has
length exactly `n`. -/
theorem mh_chain_length (D : ChainState → ℚ) (noise : ℕ → ChainState)
    (u : ℕ → ℚ) (init : ChainState) (n : ℕ) (hn : 1 ≤ n) :
    (mhChain D noise u init n).length = n := by
  simp [mhChain]

/-- Witness for C5 at a concrete run of 3 steps. -/
theorem mh_chain_length_witness :
    1 ≤ 3 ∧ (mhChain demoDensity demoNoise demoUniform (0, 0) 3).length = 3 :=
  ⟨by norm_num,
    mh_chain_length demoDensity demoNoise demoUniform (0, 0) 3 (by norm_num)⟩

/-- C8: `chain[0]` is the supplied initial state verbatim; it does not
depend on the target density at all (it is stored before the first
accept/reject test), and it is the head of the returned chain. -/
theorem mh_initial_state_verbatim (D : ChainState → ℚ) (noise : ℕ → ChainState)
    (u : ℕ → ℚ) (init : ChainState) :
    (mhState D noise u init 0).1 = init ∧
    (∀ D2 : ChainState → ℚ, mhState D2 noise u init 0 = (init, 0)) ∧
    (∀ n : ℕ, (mhChain D noise u init (n + 1)).head? = some init) := by
  refine ⟨rfl, fun _ => rfl, fun n => ?_⟩
  simp [mhChain, List.range_succ_eq_map, mhState]

/-- C10: whenever the current state has strictly positive density, the
candidate's density is at least the current one, and the uniform draw lies
in [0,1), the candidate is accepted (since then `r ≥ 1 > u`). -/
theorem mh_uphill_always_accepted (D : ChainState → ℚ) (noise : ℕ → ChainState)
    (u : ℕ → ℚ) (init : ChainState) (i : ℕ)
    (hpos : 0 < D (mhState D noise u init i).1)
    (hup : D (mhState D noise u init i).1 ≤
      D (proposeStep (mhState D noise u init i).1 (noise i)))
    (hu0 : 0 ≤ u i) (hu1 : u i < 1) :
    mhState D noise u init (i + 1) =
      (proposeStep (mhState D noise u init i).1 (noise i),
        (mhState D noise u init i).2 + 1) := by
  have hr : (1 : ℚ) ≤ D (proposeStep (mhState D noise u init i).1 (noise i)) /
      D (mhState D noise u init i).1 := (one_le_div hpos).mpr hup
  have hlt : u i < D (proposeStep (mhState D noise u init i).1 (noise i)) /
      D (mhState D noise u init i).1 := lt_of_lt_of_le hu1 hr
  simp only [mhState]
  simp [hlt]

/-- Witness for C10 at a concrete run: constant density, zero uniform draw,
first step is accepted. -/
theorem mh_uphill_always_accepted_witness :
    0 < demoDensity (mhState demoDensity demoNoise demoUniform (0, 0) 0).1 ∧
    demoUniform 0 < 1 ∧
    mhState demoDensity demoNoise demoUniform (0, 0) 1 =
      (proposeStep (mhState demoDensity demoNoise demoUniform (0, 0) 0).1
          (demoNoise 0),
        (mhState demoDensity demoNoise demoUniform (0, 0) 0).2 + 1) :=
  ⟨by norm_num [demoDensity], by norm_num [demoUniform],
    mh_uphill_always_accepted demoDensity demoNoise demoUniform (0, 0) 0
      (by norm_num [demoDensity]) (by norm_num [demoDensity])
      (by norm_num [demoUniform]) (by norm_num [demoUniform])⟩

/-- C2: the density of the current chain state is strictly positive at every
step whenever the initial state has strictly positive density and the
uniform draws are non-negative (they are drawn from [0,1)): an acceptance
requires `r > u ≥ 0`, hence a positive candidate density, so the
zero-denominator branch of `r = D(candidate) / D(chain[i])` is unreachable
and the ratio is never a division by zero. -/
theorem mh_density_positive_invariant (D : ChainState → ℚ)
    (noise : ℕ → ChainState) (u : ℕ → ℚ) (init : ChainState)
    (hinit : 0 < D init) (hu : ∀ i, 0 ≤ u i) :
    ∀ i, 0 < D (mhState D noise u init i).1 := by
  intro i
  induction i with
  | zero => exact hinit
  | succ i ih =>
    by_cases h : u i < D (proposeStep (mhState D noise u init i).1 (noise i)) /
        D (mhState D noise u init i).1
    · have hr : 0 < D (proposeStep (mhState D noise u init i).1 (noise i)) /
          D (mhState D noise u init i).1 := lt_of_le_of_lt (hu i) h
      have hcand : 0 < D (proposeStep (mhState D noise u init i).1 (noise i)) := by
        rcases div_pos_iff.mp hr with ⟨ha, _⟩ | ⟨_, hb⟩
        · exact ha
        · exact absurd ih (not_lt.mpr hb.le)
      simp only [mhState]
      simp [h, hcand]
    · simp only [mhState]
      simp [h, ih]

/-- Witness for C2 at a concrete run with positive initial density and
non-negative uniform draws. -/
theorem mh_density_positive_invariant_witness :
    0 < demoDensity (0, 0) ∧
    0 < demoDensity (mhState demoDensity demoNoise demoUniform (0, 0) 3).1 :=
  ⟨by norm_num [demoDensity],
    mh_density_positive_invariant demoDensity demoNoise demoUniform (0, 0)
      (by norm_num [demoDensity]) (fun i => by norm_num [demoUniform]) 3⟩

/-- Helper: the acceptance counter after `i` loop iterations is at most `i`,
since the loop body increments it at most once per iteration. -/
theorem mhState_acc_le (D : ChainState → ℚ) (noise : ℕ → ChainState)
    (u : ℕ → ℚ) (init : ChainState) :
    ∀ i, (mhState D noise u init i).2 ≤ i := by
  intro i
  induction i with
  | zero => exact le_refl 0
  | succ i ih =>
    simp only [mhState]
    split
    · simpa using Nat.succ_le_succ ih
    · exact le_trans ih (Nat.le_succ i)

/-- C6: for every run with `n ≥ 1` configured steps, the acceptance counter
is between 0 and `n - 1` at every point of the run and at its end (the
initial state is not an accept/reject outcome, and the counter increments at
most once per each of the `n - 1` loop iterations).  The lower bound `0 ≤ _`
holds since the counter is a natural number. -/
theorem mh_acceptance_bound (D : ChainState → ℚ) (noise : ℕ → ChainState)
    (u : ℕ → ℚ) (init : ChainState) (n : ℕ) (hn : 1 ≤ n) :
    (∀ i, i ≤ n - 1 → (mhState D noise u init i).2 ≤ n - 1) ∧
    mhAcceptances D noise u init n ≤ n - 1 :=
  ⟨fun i hi => le_trans (mhState_acc_le D noise u init i) hi,
    mhState_acc_le D noise u init (n - 1)⟩

/-- Witness for C6 at a concrete run of 3 steps. -/
theorem mh_acceptance_bound_witness :
    1 ≤ 3 ∧ mhAcceptances demoDensity demoNoise demoUniform (0, 0) 3 ≤ 3 - 1 :=
  ⟨by norm_num,
    (mh_acceptance_bound demoDensity demoNoise demoUniform (0, 0) 3
      (by norm_num)).2⟩

/-- C7: the reported empirical acceptance rate is the acceptance counter
divided by the configured chain length `n` (which equals the length of the
returned chain), not by the number `n - 1` of proposal steps performed. -/
theorem mh_acceptance_rate_over_chain_length (D : ChainState → ℚ)
    (noise : ℕ → ChainState) (u : ℕ → ℚ) (init : ChainState) (n : ℕ) :
    acceptance_rate D noise u init n =
      (mhAcceptances D noise u init n : ℚ) /
        ((mhChain D noise u init n).length : ℚ) := by
  simp [acceptance_rate, mhChain]

/-- Helper: the sampler state depends only on the pointwise values of the
density and of the two random streams. -/
theorem mhState_congr (D1 D2 : ChainState → ℚ) (noise1 noise2 : ℕ → ChainState)
    (u1 u2 : ℕ → ℚ) (init : ChainState)
    (hD : ∀ s, D1 s = D2 s) (hnoise : ∀ i, noise1 i = noise2 i)
    (hu : ∀ i, u1 i = u2 i) :
    ∀ i, mhState D1 noise1 u1 init i = mhState D2 noise2 u2 init i := by
  intro i
  induction i with
  | zero => rfl
  | succ i ih =>
    simp only [mhState, ih, hnoise, hu, hD]

/-- C9: determinism under fixed randomness — two runs with identical inputs
(the same initial state, number of steps, target density and proposal
perturbations) and the same sequences of noise and uniform draws produce an
identical chain and identical acceptance count. -/
theorem mh_deterministic_under_fixed_randomness (D1 D2 : ChainState → ℚ)
    (noise1 noise2 : ℕ → ChainState) (u1 u2 : ℕ → ℚ) (init : ChainState)
    (n : ℕ) (hD : ∀ s, D1 s = D2 s) (hnoise : ∀ i, noise1 i = noise2 i)
    (hu : ∀ i, u1 i = u2 i) :
    mhChain D1 noise1 u1 init n = mhChain D2 noise2 u2 init n ∧
    mhAcceptances D1 noise1 u1 init n = mhAcceptances D2 noise2 u2 init n := by
  have key := mhState_congr D1 D2 noise1 noise2 u1 u2 init hD hnoise hu
  constructor
  · simp only [mhChain, key]
  · simp only [mhAcceptances, key]

/-- Witness for C9 at a concrete pair of runs with equal inputs. -/
theorem mh_deterministic_under_fixed_randomness_witness :
    mhChain demoDensity demoNoise demoUniform (0, 0) 3 =
      mhChain demoDensity demoNoise demoUniform (0, 0) 3 ∧
    mhAcceptances demoDensity demoNoise demoUniform (0, 0) 3 =
      mhAcceptances demoDensity demoNoise demoUniform (0, 0) 3 :=
  mh_deterministic_under_fixed_randomness demoDensity demoDensity demoNoise
    demoNoise demoUniform demoUniform (0, 0) 3 (fun _ => rfl) (fun _ => rfl)
    (fun _ => rfl)

/-- C3: at the state `curr_param = (3.2, 0)` — which is outside the support
(`curr_param[1] ≤ 0`) — and the notebook parameters `mean = 5`, `sigma = 2`,
`N = 100`, both density functions evaluate to nan under the float
special-value semantics of the code, not to the exactly-zero value the
claim requires: `power(0, -51)` resp. `power(0, -98)` is `inf`, and the
support guard multiplies it as `0 * inf = nan`. -/
theorem posterior_fp_nan_at_zero_scale :
    posterior_space_fp 5 2 100 (3.2, 0) = Fp.nan ∧
    posterior_space_2_fp 5 2 100 (3.2, 0) = Fp.nan := by
  constructor <;>
    norm_num [posterior_space_fp, posterior_space_2_fp, Fp.pow, Fp.mul, Fp.add,
      Fp.div, Fp.exp]

/-- C4 counterexample: the two density formulations are not the same
function.  At `mean = 5`, `sigma = 0`, `N = 100`, `curr_param = (5, 2)`
both exponential factors are `exp 0 = 1`, but the power factors differ:
`posterior_space` gives `2 ^ (-(100+2)/2) = 2 ^ (-51)` while
`posterior_space_2` gives `2 ^ (-100+2) = 2 ^ (-98)`. -/
theorem posterior_formulations_differ :
    posterior_space 5 0 100 (5, 2) ≠ posterior_space_2 5 0 100 (5, 2) := by
  have h1 : posterior_space 5 0 100 (5, 2) = (2 : ℝ) ^ (-51 : ℝ) := by
    simp only [posterior_space]
    norm_num [Real.exp_zero]
  have h2 : posterior_space_2 5 0 100 (5, 2) = (2 : ℝ) ^ (-98 : ℝ) := by
    simp only [posterior_space_2]
    norm_num [Real.exp_zero]
  have hlt : (2 : ℝ) ^ (-98 : ℝ) < (2 : ℝ) ^ (-51 : ℝ) :=
    (Real.rpow_lt_rpow_left_iff (by norm_num : (1 : ℝ) < 2)).mpr (by norm_num)
  rw [h1, h2]
  exact ne_of_gt hlt

/-- C4 amended: the two formulations are not pointwise equal; instead they
read `curr_param[1]` at different parametrisations and differ by a
non-constant factor: for every `v ≥ 0`, evaluating `posterior_space_2` at
scale `v` equals `v ^ 4` times `posterior_space` evaluated at `v ^ 2`. -/
theorem posterior_space_2_eq_rescaled (mean sigma : ℝ) (N : ℕ)
    (theta v : ℝ) (h : 0 ≤ v) :
    posterior_space_2 mean sigma N (theta, v) =
      v ^ 4 * posterior_space mean sigma N (theta, v ^ 2) := by
  rcases eq_or_lt_of_le h with h0 | h0
  · rw [← h0]
    simp [posterior_space, posterior_space_2]
  · have hv2 : (0 : ℝ) < v ^ 2 := pow_pos h0 2
    have hpow : ((v ^ 2 : ℝ)) ^ (-((N : ℝ) + 2) / 2) = v ^ (-(N : ℝ) - 2) := by
      rw [← Real.rpow_natCast v 2, ← Real.rpow_mul h]
      congr 1
      push_cast
      ring
    have hcomb : v ^ (4 : ℕ) * v ^ (-(N : ℝ) - 2) = v ^ (-(N : ℝ) + 2) := by
      rw [← Real.rpow_natCast v 4, ← Real.rpow_add h0]
      congr 1
      push_cast
      ring
    have hexp : (-1 : ℝ) *
        (((N : ℝ) - 1) * sigma ^ 2 + (N : ℝ) * (mean - theta) ^ 2) /
          (2 * v ^ 2) = -1 / (2 * (v ^ 2)) *
          (((N : ℝ) - 1) * sigma ^ 2 + (N : ℝ) * (mean - theta) ^ 2) := by
      ring
    simp only [posterior_space, posterior_space_2]
    rw [if_pos h0, if_pos hv2, hpow, hexp, one_mul, one_mul, ← hcomb, mul_assoc]

/-- Witness for the amended C4 at a concrete point with positive scale. -/
theorem posterior_space_2_eq_rescaled_witness :
    (0 : ℝ) ≤ 2 ∧ posterior_space_2 5 2 100 (3, 2) =
      2 ^ 4 * posterior_space 5 2 100 (3, 2 ^ 2) :=
  ⟨by norm_num, posterior_space_2_eq_rescaled 5 2 100 3 2 (by norm_num)⟩
